import Mathlib

/-!
Verification of the trading-sight replay-driven virtual trading engine.

This file shallowly embeds the core of the repository:
`src/core/BrokerEngine.ts` (the order & risk engine) and
`src/core/ReplayController.ts` (the replay clock), and proves or refutes
the frozen behavioural claims about them.

Modelling conventions:
* JavaScript numbers are modelled as rationals (`ℚ`); arithmetic is exact.
  `isFinite` is identically true in this model (non-finite floats are not
  representable), so the finiteness clauses of `validateOrder` are vacuous.
* `Date.now()` / `performance.now()` wall-clock stamps are irrelevant to
  every verified property; entry/exit times are modelled as `0` and the
  replay clock receives timestamps as explicit parameters.
* Object mutation through references is modelled by positional update of
  the `positions` list: the trade objects in the engine's array are only
  ever mutated in place, never reordered, so an object reference is
  faithfully represented by its index in the list.
* The engine's mutating methods become pure functions
  `EngineState → result × EngineState × List TradeEvent`; the returned
  event list is what the source passes to `emitEvent`.
* The TypeScript string literal status `'open'` is rendered as the
  constructor `TradeStatus.opened` (`open` is reserved in Lean).
-/

namespace Broker

/-- Trade direction, `'buy' | 'sell'` in `types.ts`. -/
inductive TradeType where
| buy
| sell
deriving DecidableEq

/-- Trade status `'open' | 'stopped' | 'taken'` in `types.ts`. -/
inductive TradeStatus where
| opened
| stopped
| taken
deriving DecidableEq

/-- The `Trade` interface of `types.ts`.  Optional fields are `Option`s. -/
structure Trade where
  id : String
  type : TradeType
  entryPrice : ℚ
  sl : ℚ
  tp : ℚ
  size : ℚ
  entryTime : ℕ
  exitTime : Option ℕ := none
  exitPrice : Option ℚ := none
  status : TradeStatus
  unrealizedPnL : ℚ
  realizedPnL : Option ℚ := none
deriving DecidableEq

/-- The `TradeEventType` enum of `types.ts`. -/
inductive TradeEventType where
| TRADE_OPENED
| TRADE_CLOSED
| PNL_UPDATED
deriving DecidableEq

/-- The `TradeEvent` record (`timestamp : Date.now()` is dropped: it is a
wall-clock stamp that no claim mentions). -/
structure TradeEvent where
  type : TradeEventType
  trade : Trade
deriving DecidableEq

/-- The `BrokerConfig` interface; `none` models an absent optional field. -/
structure BrokerConfig where
  initialBalance : ℚ
  riskPerTrade : Option ℚ := none
  defaultLotSize : Option ℚ := none
  minSLDistance : Option ℚ := none
  maxOpenPositions : Option ℕ := none
deriving DecidableEq

/-- The constructor's config merge
`{ riskPerTrade: 0.01, defaultLotSize: 0.1, minSLDistance: 10, maxOpenPositions: 10, ...config }`. -/
def mergeConfig (config : BrokerConfig) : BrokerConfig :=
  { initialBalance := config.initialBalance
    riskPerTrade := some (config.riskPerTrade.getD (1/100))
    defaultLotSize := some (config.defaultLotSize.getD (1/10))
    minSLDistance := some (config.minSLDistance.getD 10)
    maxOpenPositions := some (config.maxOpenPositions.getD 10) }

/-- JavaScript `x || d` for an optional number: `undefined` and `0` are
falsy and fall back to the default. -/
def qOr (x : Option ℚ) (d : ℚ) : ℚ :=
  match x with
  | none => d
  | some v => if v = 0 then d else v

/-- The private fields of a `BrokerEngine` instance.  The subscriber list
is kept outside the state: events are returned as explicit output. -/
structure EngineState where
  config : BrokerConfig
  positions : List Trade
  balance : ℚ
  equity : ℚ
  currentPrice : ℚ
  tradeCounter : ℕ
deriving DecidableEq

/-- `new BrokerEngine(config)`. -/
def init (config : BrokerConfig) : EngineState :=
  { config := mergeConfig config
    positions := []
    balance := config.initialBalance
    equity := config.initialBalance
    currentPrice := 0
    tradeCounter := 0 }

/-- `trade.status === 'open'`. -/
def isOpen (t : Trade) : Bool :=
  match t.status with
  | TradeStatus.opened => true
  | _ => false

/-- `getOpenPositions()`. -/
def getOpenPositions (s : EngineState) : List Trade :=
  s.positions.filter isOpen

/-- `getClosedPositions()` (`status !== 'open'`). -/
def getClosedPositions (s : EngineState) : List Trade :=
  s.positions.filter (fun t => !(isOpen t))

/-- `getBalance()`. -/
def getBalance (s : EngineState) : ℚ :=
  s.balance

/-- `getEquity()`. -/
def getEquity (s : EngineState) : ℚ :=
  s.equity

/-- `calculatePnL(type, entryPrice, exitPrice, size)`. -/
def calculatePnL (type : TradeType) (entryPrice exitPrice size : ℚ) : ℚ :=
  match type with
  | TradeType.buy => (exitPrice - entryPrice) * size
  | TradeType.sell => (entryPrice - exitPrice) * size

/-- The running sum `reduce((total, trade) => total + trade.unrealizedPnL, 0)`. -/
def sumUnrealized (l : List Trade) : ℚ :=
  l.foldl (fun total t => total + t.unrealizedPnL) 0

/-- `updateEquity()`. -/
def updateEquity (s : EngineState) : EngineState :=
  { s with equity := s.balance + sumUnrealized (getOpenPositions s) }

/-- The SL/TP ordering checks of `validateOrder` (lines 229-235). -/
def slTpOrderingOk (type : TradeType) (price sl tp : ℚ) : Bool :=
  match type with
  | TradeType.buy =>
      if sl ≥ price then false else if tp ≤ price then false else true
  | TradeType.sell =>
      if sl ≤ price then false else if tp ≥ price then false else true

/-- `validateOrder(type, price, sl, tp, size)`.  The `isFinite` checks are
identically true over `ℚ` and are omitted. -/
def validateOrder (s : EngineState) (type : TradeType) (price sl tp : ℚ)
    (size : Option ℚ) : Bool :=
  if price ≤ 0 then false
  else if sl ≤ 0 then false
  else if tp ≤ 0 then false
  else if slTpOrderingOk type price sl tp = false then false
  else if |price - sl| < qOr s.config.minSLDistance 0 then false
  else
    match size with
    | some sz => if sz ≤ 0 then false else true
    | none => true

/-- `openPositions >= (this.config.maxOpenPositions || Infinity)`:
an absent or zero cap is `Infinity`, which the count never reaches. -/
def limitReached (openCount : ℕ) (cfg : BrokerConfig) : Bool :=
  match cfg.maxOpenPositions with
  | none => false
  | some m => if m = 0 then false else decide (m ≤ openCount)

/-- `calculatePositionSize(type, entryPrice, sl)` (the `type` argument is
unused by the source as well). -/
def calculatePositionSize (s : EngineState) (_type : TradeType)
    (entryPrice sl : ℚ) : ℚ :=
  let riskPerTrade := qOr s.config.riskPerTrade (1/100)
  let riskAmount := s.balance * riskPerTrade
  let slDistance := |entryPrice - sl|
  let positionSize := riskAmount / slDistance
  min positionSize (qOr s.config.defaultLotSize (1/10))

/-- JavaScript `size || computed` of line 54: `undefined` and `0` fall
through to the computed size. -/
def sizeOrDefault (size : Option ℚ) (computed : ℚ) : ℚ :=
  match size with
  | none => computed
  | some v => if v = 0 then computed else v

/-- `placeOrder(type, price, sl, tp, size?)`. -/
def placeOrder (s : EngineState) (type : TradeType) (price sl tp : ℚ)
    (size : Option ℚ) : Option Trade × EngineState × List TradeEvent :=
  if validateOrder s type price sl tp size = false then (none, s, [])
  else if limitReached (getOpenPositions s).length s.config = true then (none, s, [])
  else
    let positionSize := sizeOrDefault size (calculatePositionSize s type price sl)
    let counter := s.tradeCounter + 1
    let trade : Trade :=
      { id := "trade_" ++ toString counter
        type := type
        entryPrice := price
        sl := sl
        tp := tp
        size := positionSize
        entryTime := 0
        status := TradeStatus.opened
        unrealizedPnL := 0 }
    let s1 := { s with positions := s.positions ++ [trade], tradeCounter := counter }
    let s2 := updateEquity s1
    (some trade, s2, [{ type := TradeEventType.TRADE_OPENED, trade := trade }])

/-- The in-place mutation of the found trade in `closeTrade`
(lines 104-107): exit fields, status `'stopped'`, realized P&L. -/
def close1 (t : Trade) (closePrice : ℚ) : Trade :=
  { t with
    exitPrice := some closePrice
    exitTime := some 0
    status := TradeStatus.stopped
    realizedPnL := some (calculatePnL t.type t.entryPrice closePrice t.size) }

/-- `positions.find(t => t.id === tradeId && t.status === 'open')` followed
by the in-place close: returns the closed trade and the updated list, or
`none` when no open trade with that id exists. -/
def closeFirst (tradeId : String) (closePrice : ℚ) :
    List Trade → Option (Trade × List Trade)
  | [] => none
  | t :: rest =>
    if t.id = tradeId ∧ isOpen t = true then
      let t' := close1 t closePrice
      some (t', t' :: rest)
    else
      match closeFirst tradeId closePrice rest with
      | none => none
      | some (c, rest') => some (c, t :: rest')

/-- `closeTrade(tradeId, exitPrice?)`. -/
def closeTrade (s : EngineState) (tradeId : String) (exitPrice : Option ℚ) :
    Option Trade × EngineState × List TradeEvent :=
  let closePrice := exitPrice.getD s.currentPrice
  match closeFirst tradeId closePrice s.positions with
  | none => (none, s, [])
  | some (t', ps') =>
      let s1 := { s with positions := ps', balance := s.balance + t'.realizedPnL.getD 0 }
      let s2 := updateEquity s1
      (some t', s2, [{ type := TradeEventType.TRADE_CLOSED, trade := t' }])

/-- `this.currentPrice <= trade.sl` for a buy, `>=` for a sell
(lines 273 and 282). -/
def slHit (p : ℚ) (t : Trade) : Bool :=
  match t.type with
  | TradeType.buy => decide (p ≤ t.sl)
  | TradeType.sell => decide (p ≥ t.sl)

/-- `this.currentPrice >= trade.tp` for a buy, `<=` for a sell
(lines 276 and 285). -/
def tpHit (p : ℚ) (t : Trade) : Bool :=
  match t.type with
  | TradeType.buy => decide (p ≥ t.tp)
  | TradeType.sell => decide (p ≤ t.tp)

/-- Neither exit level is hit at price `p`. -/
def noHit (p : ℚ) (t : Trade) : Bool :=
  !(slHit p t) && !(tpHit p t)

/-- The `trade.unrealizedPnL = this.calculatePnL(...)` write of line 269. -/
def refreshUnrealized (p : ℚ) (t : Trade) : Trade :=
  { t with unrealizedPnL := calculatePnL t.type t.entryPrice p t.size }

/-- The net effect of one `forEach` iteration of `updateAllPositions` on
the trade object it visits, as a function of the price: refreshed, then
closed at the stop (status `stopped`), marked `taken` (with no close), or
left open. -/
def tickResult (p : ℚ) (t : Trade) : Trade :=
  if slHit p t = true then close1 (refreshUnrealized p t) t.sl
  else if tpHit p t = true then { refreshUnrealized p t with status := TradeStatus.taken }
  else refreshUnrealized p t

/-- The body of the `forEach` in `updateAllPositions` (lines 267-291) for
the trade object at index `i`: refresh its unrealized P&L, then check the
stop-loss first and the take-profit second.  The take-profit branch sets
the status to `'taken'` before calling `closeTrade`, exactly as the
source does. -/
def updateTick (st : EngineState) (i : ℕ) : EngineState × List TradeEvent :=
  match st.positions[i]? with
  | none => (st, [])
  | some t0 =>
    let t1 : Trade := refreshUnrealized st.currentPrice t0
    let st1 : EngineState := { st with positions := st.positions.set i t1 }
    if slHit st.currentPrice t1 = true then
      let r := closeTrade st1 t1.id (some t1.sl)
      (r.2.1, r.2.2)
    else if tpHit st.currentPrice t1 = true then
      let t2 : Trade := { t1 with status := TradeStatus.taken }
      let st2 : EngineState := { st1 with positions := st1.positions.set i t2 }
      let r := closeTrade st2 t2.id (some t2.tp)
      (r.2.1, r.2.2)
    else
      (st1, [])

/-- `l[i]?` restricted to open trades: whether the snapshot taken by
`getOpenPositions()` contains the object at index `i`. -/
def isOpenAt (l : List Trade) (i : ℕ) : Bool :=
  match l[i]? with
  | some t => isOpen t
  | none => false

/-- The indices of the open positions, in order: the object references of
the `getOpenPositions()` snapshot. -/
def openIdxs (l : List Trade) : List ℕ :=
  (List.range l.length).filter (isOpenAt l)

/-- Sequential processing of a list of snapshot indices, threading the
state and concatenating the emitted events. -/
def runTicks (s : EngineState) : List ℕ → EngineState × List TradeEvent
  | [] => (s, [])
  | i :: rest =>
    let r1 := updateTick s i
    let r2 := runTicks r1.1 rest
    (r2.1, r1.2 ++ r2.2)

/-- `updateAllPositions()`. -/
def updateAllPositions (s : EngineState) : EngineState × List TradeEvent :=
  runTicks s (openIdxs s.positions)

/-- `update(currentPrice)`. -/
def update (s : EngineState) (currentPrice : ℚ) : EngineState × List TradeEvent :=
  let s0 := { s with currentPrice := currentPrice }
  let r := updateAllPositions s0
  (updateEquity r.1, r.2)

/-- Sequentially `closeTrade` each id of a snapshot (the `forEach` of
`closeAllPositions`). -/
def closeMany (s : EngineState) : List String → EngineState × List TradeEvent
  | [] => (s, [])
  | tid :: rest =>
    let r1 := closeTrade s tid none
    let r2 := closeMany r1.2.1 rest
    (r2.1, r1.2.2 ++ r2.2)

/-- `closeAllPositions()`. -/
def closeAllPositions (s : EngineState) : EngineState × List TradeEvent :=
  closeMany s ((getOpenPositions s).map (fun t => t.id))

/-- `reset()` (note: the source does not reset `currentPrice`). -/
def reset (s : EngineState) : EngineState :=
  { s with
    positions := []
    balance := s.config.initialBalance
    equity := s.config.initialBalance
    tradeCounter := 0 }

/-- `trade.realizedPnL ?? 0` as used by the statistics accessors. -/
def realizedOrZero (t : Trade) : ℚ :=
  t.realizedPnL.getD 0

/-- The gross profit accumulated by `getProfitFactor` (lines 172-174). -/
def grossProfit (s : EngineState) : ℚ :=
  ((getClosedPositions s).filter (fun t => decide (0 < realizedOrZero t))).foldl
    (fun total t => total + realizedOrZero t) 0

/-- The gross loss accumulated by `getProfitFactor` (lines 175-177). -/
def grossLoss (s : EngineState) : ℚ :=
  ((getClosedPositions s).filter (fun t => decide (realizedOrZero t < 0))).foldl
    (fun total t => total + |realizedOrZero t|) 0

/-- The value of `getProfitFactor`: a rational or `Infinity`. -/
inductive ProfitFactorValue where
| finite (q : ℚ)
| infinite
deriving DecidableEq

/-- `getProfitFactor()`. -/
def getProfitFactor (s : EngineState) : ProfitFactorValue :=
  if grossLoss s = 0 then
    (if 0 < grossProfit s then ProfitFactorValue.infinite else ProfitFactorValue.finite 1)
  else ProfitFactorValue.finite (grossProfit s / grossLoss s)

/-- The win counter of `getWinRate` (line 189). -/
def winsCount (s : EngineState) : ℕ :=
  ((getClosedPositions s).filter (fun t => decide (0 < realizedOrZero t))).length

/-- `getWinRate()`. -/
def getWinRate (s : EngineState) : ℚ :=
  if (getClosedPositions s).length = 0 then 0
  else ((winsCount s : ℚ) / ((getClosedPositions s).length : ℚ)) * 100

/-- A state with one more trade appended to the history; used to state how
the statistics accessors treat a given trade. -/
def withTrade (s : EngineState) (t : Trade) : EngineState :=
  { s with positions := s.positions ++ [t] }

/-- The literal configuration of spec Scenario A: only `initialBalance`. -/
def cfg0 : BrokerConfig := { initialBalance := 10000 }

/-- Scenario A's configuration with the minimum stop distance lowered to
`0.5` so that the scenario's order passes validation at all. -/
def cfg1 : BrokerConfig := { initialBalance := 10000, minSLDistance := some (1/2) }

/-- The engine state after Scenario A's order
`placeOrder(buy, 100.0, 99.5, 101.0, 0.1)` under `cfg1`. -/
def sA1 : EngineState :=
  (placeOrder (init cfg1) TradeType.buy 100 (199/2) 101 (some (1/10))).2.1

/-- The trade created by the witness order of C6. -/
def tW : Trade :=
  { id := "trade_" ++ toString 1
    type := TradeType.buy
    entryPrice := 100
    sl := 90
    tp := 110
    size := 1/10
    entryTime := 0
    status := TradeStatus.opened
    unrealizedPnL := 0 }

/-- A closed winning trade for the C10 witness state. -/
def tClosedWin : Trade :=
  { id := "trade_1"
    type := TradeType.buy
    entryPrice := 100
    sl := 90
    tp := 110
    size := 1/10
    entryTime := 0
    exitTime := some 0
    exitPrice := some 110
    status := TradeStatus.stopped
    unrealizedPnL := 1
    realizedPnL := some 1 }

/-- A `taken` trade whose `realizedPnL` was never set (the state the
take-profit bug produces). -/
def tGhost : Trade :=
  { id := "trade_2"
    type := TradeType.buy
    entryPrice := 100
    sl := 90
    tp := 110
    size := 1/10
    entryTime := 0
    status := TradeStatus.taken
    unrealizedPnL := 1
    realizedPnL := none }

/-- A concrete engine state holding one closed winning trade. -/
def s10 : EngineState :=
  { config := mergeConfig cfg0
    positions := [tClosedWin]
    balance := 10001
    equity := 10001
    currentPrice := 110
    tradeCounter := 2 }

/-- An open long trade with inverted exit levels, so that a single price
can cross both the stop-loss and the take-profit at once (the gap of
Scenario E). -/
def tBoth : Trade :=
  { id := "trade_1"
    type := TradeType.buy
    entryPrice := 100
    sl := 100
    tp := 90
    size := 1
    entryTime := 0
    status := TradeStatus.opened
    unrealizedPnL := 0 }

/-- A concrete engine state holding the gap trade. -/
def sGap : EngineState :=
  { config := mergeConfig cfg0
    positions := [tBoth]
    balance := 10000
    equity := 10000
    currentPrice := 100
    tradeCounter := 1 }

/-- The observable behaviour of one subscriber callback on one event:
it either returns normally or raises an error. -/
inductive CallbackResult where
| ok
| err (msg : String)
deriving DecidableEq

/-- A subscriber of `onTradeEvent`, abstracted by its behaviour. -/
def Subscriber := TradeEvent → CallbackResult

/-- The per-subscriber `try { callback(event) } catch (error) { log }` of
`emitEvent` (lines 319-323): a raised error is caught and recorded, never
re-thrown. -/
inductive DeliveryOutcome where
| delivered
| caughtError (msg : String)
deriving DecidableEq

/-- One guarded callback invocation inside `emitEvent`. -/
def runCallback (cb : Subscriber) (e : TradeEvent) : DeliveryOutcome :=
  match cb e with
  | CallbackResult.ok => DeliveryOutcome.delivered
  | CallbackResult.err m => DeliveryOutcome.caughtError m

/-- `emitEvent(event)`: `this.eventCallbacks.forEach(...)` with the
per-callback try/catch.  Returns the outcome observed at each subscriber,
in registration order. -/
def emitEvent (cbs : List Subscriber) (e : TradeEvent) : List DeliveryOutcome :=
  match cbs with
  | [] => []
  | cb :: rest => runCallback cb e :: emitEvent rest e

/-- A subscriber that always returns normally. -/
def cbOk : Subscriber := fun _ => CallbackResult.ok

/-- A subscriber that always raises. -/
def cbBad : Subscriber := fun _ => CallbackResult.err "boom"

/-- A concrete event for the C9 witness. -/
def e0 : TradeEvent := { type := TradeEventType.TRADE_OPENED, trade := tClosedWin }

/-- Delivery of every event produced by one engine operation. -/
def deliverAll (cbs : List Subscriber) (evs : List TradeEvent) : List (List DeliveryOutcome) :=
  evs.map (emitEvent cbs)

/-- `placeOrder` as observed by its caller when subscribers are attached:
the returned trade and state, next to the delivery outcomes. -/
def placeOrderWith (cbs : List Subscriber) (s : EngineState) (type : TradeType)
    (price sl tp : ℚ) (size : Option ℚ) :
    (Option Trade × EngineState) × List (List DeliveryOutcome) :=
  let r := placeOrder s type price sl tp size
  ((r.1, r.2.1), deliverAll cbs r.2.2)

/-- `update` as observed by its caller when subscribers are attached. -/
def updateWith (cbs : List Subscriber) (s : EngineState) (p : ℚ) :
    EngineState × List (List DeliveryOutcome) :=
  let r := update s p
  (r.1, deliverAll cbs r.2)

/-- The states reachable from `new BrokerEngine(config)` via the public
operations. -/
inductive Reachable : EngineState → Prop where
| init (cfg : BrokerConfig) : Reachable (init cfg)
| place (s : EngineState) (type : TradeType) (price sl tp : ℚ) (size : Option ℚ) :
    Reachable s → Reachable (placeOrder s type price sl tp size).2.1
| upd (s : EngineState) (p : ℚ) : Reachable s → Reachable (update s p).1
| close (s : EngineState) (tid : String) (ep : Option ℚ) :
    Reachable s → Reachable (closeTrade s tid ep).2.1
| closeAll (s : EngineState) : Reachable s → Reachable (closeAllPositions s).1
| reset (s : EngineState) : Reachable s → Reachable (reset s)

/-- The ids of the trades in the history, in order. -/
def idsOf (l : List Trade) : List String :=
  l.map (fun t => t.id)

end Broker

namespace Replay

/-- The `ReplayState` interface of `types.ts`. -/
structure ReplayState where
  currentTickIndex : ℤ
  playbackSpeed : ℚ
  isPaused : Bool
deriving DecidableEq

/-- The private fields of a `ReplayController`.  Only the length of the
OHLC data array is control-relevant; `animationFrameId` records whether a
frame callback is scheduled (the numeric handle is abstracted to `0`);
`performance.now()` timestamps arrive as explicit parameters. -/
structure ReplayController where
  dataLen : ℕ
  state : ReplayState
  animationFrameId : Option ℕ
  lastUpdate : ℚ
deriving DecidableEq

/-- `pause()`. -/
def pause (c : ReplayController) : ReplayController :=
  let c1 := { c with state := { c.state with isPaused := true } }
  match c1.animationFrameId with
  | some _ => { c1 with animationFrameId := none }
  | none => c1

/-- `play()`: guarded only by `isPaused`; when paused it clears the flag,
resets the elapsed-time baseline and schedules the playback loop.  The
returned list is the (empty) sequence of `onTickChange` invocations. -/
def play (c : ReplayController) (now : ℚ) : ReplayController × List ℤ :=
  if c.state.isPaused = true then
    ({ c with
        state := { c.state with isPaused := false }
        lastUpdate := now
        animationFrameId := some 0 }, [])
  else (c, [])

/-- One invocation of the `loop` closure of `startPlaybackLoop`
(lines 171-192), at frame timestamp `timestamp`: possibly advance the tick
(invoking the tick callback) or auto-pause at the end of the data, then
either reschedule the loop or drop the frame handle. -/
def loopStep (c : ReplayController) (timestamp : ℚ) : ReplayController × List ℤ :=
  if c.state.isPaused = true then (c, [])
  else
    let r1 :=
      if c.state.playbackSpeed ≤ timestamp - c.lastUpdate then
        if c.state.currentTickIndex < (c.dataLen : ℤ) - 1 then
          ({ c with
              state := { c.state with currentTickIndex := c.state.currentTickIndex + 1 }
              lastUpdate := timestamp },
           [c.state.currentTickIndex + 1])
        else (pause c, [])
      else (c, [])
    let c1 := r1.1
    if c1.state.isPaused = false ∧ c1.state.currentTickIndex < (c1.dataLen : ℤ) - 1 then
      ({ c1 with animationFrameId := some 0 }, r1.2)
    else
      ({ c1 with animationFrameId := none }, r1.2)

/-- A concrete replay clock sitting at the last index of a two-sample
sequence, paused. -/
def rcEnd : ReplayController :=
  { dataLen := 2
    state := { currentTickIndex := 1, playbackSpeed := 1000, isPaused := true }
    animationFrameId := none
    lastUpdate := 0 }

end Replay

namespace Broker

/-- Claim C1 (Scenario A): refuted by the code.  With the claim's literal
configuration (only `initialBalance = 10000`) the order is already rejected
by the default minimum stop distance of 10 (the stop is only 0.5 away).
With the stop-distance floor lowered to 0.5 so that the order is accepted,
`update 101` marks the trade `taken` but leaves `realizedPnL` unset, leaves
the balance at 10000 (not 10000.1) and publishes no event: the take-profit
branch of `updateAllPositions` sets `status = 'taken'` before calling
`closeTrade`, whose lookup only matches trades whose status is still
`'open'`, so the close is a no-op. -/
theorem C1_scenarioA_taken_without_realization :
    (placeOrder (init cfg0) TradeType.buy 100 (199/2) 101 (some (1/10))).1 = none ∧
    (placeOrder (init cfg1) TradeType.buy 100 (199/2) 101 (some (1/10))).1.isSome = true ∧
    (update sA1 101).1.positions.map (fun t => (t.status, t.realizedPnL)) =
      [(TradeStatus.taken, none)] ∧
    (update sA1 101).1.balance = 10000 ∧
    (update sA1 101).2 = [] := by
  refine ⟨?_, ?_, ?_⟩
  · norm_num [placeOrder, validateOrder, slTpOrderingOk, qOr, init, mergeConfig, cfg0,
      abs_of_pos]
  · norm_num [placeOrder, validateOrder, slTpOrderingOk, qOr, init, mergeConfig, cfg1,
      limitReached, getOpenPositions, sizeOrDefault, abs_of_pos]
  · norm_num [sA1, cfg1, placeOrder, validateOrder, slTpOrderingOk, qOr, init, mergeConfig,
      limitReached, getOpenPositions, sizeOrDefault, updateEquity, update, updateAllPositions,
      openIdxs, isOpenAt, isOpen, runTicks, updateTick, refreshUnrealized, slHit, tpHit,
      closeTrade, closeFirst, close1, calculatePnL, sumUnrealized, List.range, List.range.loop,
      List.filter, abs_of_pos]

/-- Claim C2: refuted by the code.  A trade can transition to the terminal
status `taken` with `realizedPnL` still unset, and it is never set
afterwards (no `TRADE_CLOSED` event is published for it either): in the
take-profit branch the status is overwritten before `closeTrade` runs, so
the close that would set `realizedPnL` never matches the trade. -/
theorem C2_terminal_trade_without_realizedPnL :
    (update sA1 101).1.positions.map (fun t => (t.status, t.realizedPnL)) =
      [(TradeStatus.taken, none)] ∧
    (update sA1 101).2 = [] ∧
    (update (update sA1 101).1 101).1.positions.map (fun t => t.realizedPnL) = [none] := by
  norm_num [sA1, cfg1, placeOrder, validateOrder, slTpOrderingOk, qOr, init, mergeConfig,
    limitReached, getOpenPositions, sizeOrDefault, updateEquity, update, updateAllPositions,
    openIdxs, isOpenAt, isOpen, runTicks, updateTick, refreshUnrealized, slHit, tpHit,
    closeTrade, closeFirst, close1, calculatePnL, sumUnrealized, List.range, List.range.loop,
    List.filter, abs_of_pos]

/-- Claim C5: a `placeOrder` call that fails validation or hits the open
position cap returns `null`, leaves the whole engine state (trade list,
balance, equity, trade-id counter) untouched and publishes no event. -/
theorem C5_rejected_order_no_side_effect (s : EngineState) (type : TradeType)
    (price sl tp : ℚ) (size : Option ℚ)
    (h : validateOrder s type price sl tp size = false ∨
         limitReached (getOpenPositions s).length s.config = true) :
    placeOrder s type price sl tp size = (none, s, []) := by
  by_cases hv : validateOrder s type price sl tp size = false
  · simp [placeOrder, hv]
  · rcases h with h | h
    · exact absurd h hv
    · simp [placeOrder, hv, h]

/-- Witness for C5: spec Scenario C (a long order whose stop equals its
entry) is rejected with no state change and no event. -/
theorem C5_witness :
    validateOrder (init cfg0) TradeType.buy 100 100 101 none = false ∧
    placeOrder (init cfg0) TradeType.buy 100 100 101 none = (none, init cfg0, []) := by
  have hv : validateOrder (init cfg0) TradeType.buy 100 100 101 none = false := by
    norm_num [validateOrder, slTpOrderingOk, qOr, init, mergeConfig, cfg0]
  exact ⟨hv, C5_rejected_order_no_side_effect _ _ _ _ _ _ (Or.inl hv)⟩

/-- Claim C6: when the `size` argument is omitted, an accepted order's size
is `min(balance × riskPerTrade / |entry − stop|, defaultLotSize)`; in
particular it never exceeds the configured default lot size. -/
theorem C6_omitted_size_risk_based (s : EngineState) (type : TradeType)
    (price sl tp : ℚ) (t : Trade)
    (h : (placeOrder s type price sl tp none).1 = some t) :
    t.size = min (s.balance * qOr s.config.riskPerTrade (1/100) / |price - sl|)
               (qOr s.config.defaultLotSize (1/10)) ∧
    t.size ≤ qOr s.config.defaultLotSize (1/10) := by
  by_cases hv : validateOrder s type price sl tp none = false
  · simp [placeOrder, hv] at h
  · by_cases hl : limitReached (getOpenPositions s).length s.config = true
    · simp [placeOrder, hv, hl] at h
    · simp [placeOrder, hv, hl] at h
      cases h
      exact ⟨by simp [sizeOrDefault, calculatePositionSize], by
        simp [sizeOrDefault, calculatePositionSize]⟩

/-- Witness for C6: under the default configuration, an auto-sized order
with a 10-point stop computes `min(10000 × 0.01 / 10, 0.1) = 0.1`. -/
theorem C6_witness :
    tW.size = min ((init cfg0).balance * qOr (init cfg0).config.riskPerTrade (1/100) /
        |(100:ℚ) - 90|) (qOr (init cfg0).config.defaultLotSize (1/10)) ∧
    tW.size ≤ qOr (init cfg0).config.defaultLotSize (1/10) :=
  C6_omitted_size_risk_based (init cfg0) TradeType.buy 100 90 110 tW (by
    norm_num [placeOrder, validateOrder, slTpOrderingOk, qOr, init, mergeConfig, cfg0,
      limitReached, getOpenPositions, sizeOrDefault, calculatePositionSize, tW,
      abs_of_pos, min_def])

end Broker

namespace Broker

/-- Claim C10: a trade in a terminal status whose `realizedPnL` is unset is
treated by the statistics accessors exactly as a zero-P&L closed trade:
appending such a trade to the history changes neither gross profit, gross
loss nor the profit factor, never adds a win, yet enlarges the closed-trade
denominator of the win rate by one. -/
theorem C10_unset_realized_counts_as_zero (s : EngineState) (t : Trade)
    (hterm : t.status ≠ TradeStatus.opened) (hnone : t.realizedPnL = none) :
    grossProfit (withTrade s t) = grossProfit s ∧
    grossLoss (withTrade s t) = grossLoss s ∧
    getProfitFactor (withTrade s t) = getProfitFactor s ∧
    (getClosedPositions (withTrade s t)).length = (getClosedPositions s).length + 1 ∧
    winsCount (withTrade s t) = winsCount s ∧
    getWinRate (withTrade s t) =
      (winsCount s : ℚ) / (((getClosedPositions s).length : ℚ) + 1) * 100 := by
  have hopen : isOpen t = false := by
    cases ht : t.status
    · exact absurd ht hterm
    · simp [isOpen, ht]
    · simp [isOpen, ht]
  have hclosed : getClosedPositions (withTrade s t) = getClosedPositions s ++ [t] := by
    simp [getClosedPositions, withTrade, List.filter_append, hopen]
  have hzero : realizedOrZero t = 0 := by simp [realizedOrZero, hnone]
  have hwins : (getClosedPositions (withTrade s t)).filter
      (fun u => decide (0 < realizedOrZero u)) =
      (getClosedPositions s).filter (fun u => decide (0 < realizedOrZero u)) := by
    rw [hclosed, List.filter_append]
    simp [hzero]
  have hloss : (getClosedPositions (withTrade s t)).filter
      (fun u => decide (realizedOrZero u < 0)) =
      (getClosedPositions s).filter (fun u => decide (realizedOrZero u < 0)) := by
    rw [hclosed, List.filter_append]
    simp [hzero]
  have hGP : grossProfit (withTrade s t) = grossProfit s := by
    simp only [grossProfit, hwins]
  have hGL : grossLoss (withTrade s t) = grossLoss s := by
    simp only [grossLoss, hloss]
  have hWC : winsCount (withTrade s t) = winsCount s := by
    simp only [winsCount, hwins]
  have hlen : (getClosedPositions (withTrade s t)).length =
      (getClosedPositions s).length + 1 := by
    rw [hclosed]
    simp
  refine ⟨hGP, hGL, ?_, hlen, hWC, ?_⟩
  · simp only [getProfitFactor, hGP, hGL]
  · rw [getWinRate, hlen, hWC]
    simp only [Nat.succ_ne_zero, if_false]
    push_cast
    ring

/-- Witness for C10 at a concrete state and concrete terminal trade with
unset `realizedPnL`. -/
theorem C10_witness :
    grossProfit (withTrade s10 tGhost) = grossProfit s10 ∧
    grossLoss (withTrade s10 tGhost) = grossLoss s10 ∧
    getProfitFactor (withTrade s10 tGhost) = getProfitFactor s10 ∧
    (getClosedPositions (withTrade s10 tGhost)).length =
      (getClosedPositions s10).length + 1 ∧
    winsCount (withTrade s10 tGhost) = winsCount s10 ∧
    getWinRate (withTrade s10 tGhost) =
      (winsCount s10 : ℚ) / (((getClosedPositions s10).length : ℚ) + 1) * 100 :=
  C10_unset_realized_counts_as_zero s10 tGhost (by simp [tGhost]) rfl

/-- Claim C9: event delivery reaches every current subscriber in
registration order; a subscriber that raises is recorded as a caught error
while delivery to the remaining subscribers is unaffected, and the
triggering operation's result and state are independent of the subscribers
(no error propagates to its caller). -/
theorem C9_subscriber_fault_isolation :
    (∀ (pre post : List Subscriber) (bad : Subscriber) (m : String) (e : TradeEvent),
      bad e = CallbackResult.err m →
        emitEvent (pre ++ bad :: post) e =
          emitEvent pre e ++ DeliveryOutcome.caughtError m :: emitEvent post e) ∧
    (∀ (cbs : List Subscriber) (e : TradeEvent),
      (emitEvent cbs e).length = cbs.length) ∧
    (∀ (cbs : List Subscriber) (s : EngineState) (type : TradeType) (price sl tp : ℚ)
        (size : Option ℚ),
      (placeOrderWith cbs s type price sl tp size).1 =
        ((placeOrder s type price sl tp size).1, (placeOrder s type price sl tp size).2.1)) ∧
    (∀ (cbs : List Subscriber) (s : EngineState) (p : ℚ),
      (updateWith cbs s p).1 = (update s p).1) := by
  refine ⟨?_, ?_, fun _ _ _ _ _ _ _ => rfl, fun _ _ _ => rfl⟩
  · intro pre post bad m e hb
    induction pre with
    | nil => simp [emitEvent, runCallback, hb]
    | cons cb rest ih => simp [emitEvent, ih]
  · intro cbs e
    induction cbs with
    | nil => rfl
    | cons cb rest ih => simp [emitEvent, ih]

/-- Witness for C9: with a raising subscriber between two well-behaved
ones, all three are reached in order and the error is merely recorded. -/
theorem C9_witness :
    emitEvent [cbOk, cbBad, cbOk] e0 =
      [DeliveryOutcome.delivered, DeliveryOutcome.caughtError "boom",
       DeliveryOutcome.delivered] ∧
    (emitEvent [cbOk, cbBad, cbOk] e0).length = 3 := by
  have h := C9_subscriber_fault_isolation.1 [cbOk] [cbOk] cbBad "boom" e0 rfl
  exact ⟨h.trans rfl, congrArg List.length (h.trans rfl)⟩

end Broker

namespace Replay

/-- `pause()` always leaves the clock paused. -/
theorem pause_isPaused (c : ReplayController) : (pause c).state.isPaused = true := by
  cases h : c.animationFrameId <;> simp [pause, h]

/-- `pause()` never moves the tick index. -/
theorem pause_currentTickIndex (c : ReplayController) :
    (pause c).state.currentTickIndex = c.state.currentTickIndex := by
  cases h : c.animationFrameId <;> simp [pause, h]

/-- Claim C7 is refuted: at the last tick index (`N−1 = 1` of a two-sample
sequence) with the clock paused, `play()` is not a no-op — it flips the
paused flag to `false` (and schedules the playback loop). -/
theorem C7_counterexample_play_at_end_not_noop :
    rcEnd.state.currentTickIndex = (rcEnd.dataLen : ℤ) - 1 ∧
    rcEnd.state.isPaused = true ∧
    (play rcEnd 0).1.state.isPaused = false ∧
    (play rcEnd 0).1 ≠ rcEnd := by
  refine ⟨by decide, rfl, rfl, ?_⟩
  intro hEq
  have : (play rcEnd 0).1.state.isPaused = rcEnd.state.isPaused := by rw [hEq]
  simp [play, rcEnd] at this

/-- Claim C7 amended: `play()` at index `N−1` does change the paused flag
(from paused to playing), but it never advances the tick index and never
invokes the tick callback, and neither does any subsequent iteration of
the playback loop — the loop either auto-pauses or stops rescheduling. -/
theorem C7_play_at_end_never_advances (c : ReplayController) (now : ℚ)
    (h : c.state.currentTickIndex = (c.dataLen : ℤ) - 1) :
    (play c now).1.state.currentTickIndex = c.state.currentTickIndex ∧
    (play c now).2 = [] ∧
    (c.state.isPaused = true → (play c now).1.state.isPaused = false) ∧
    (∀ ts : ℚ, (loopStep (play c now).1 ts).1.state.currentTickIndex =
        c.state.currentTickIndex ∧
      (loopStep (play c now).1 ts).2 = []) := by
  by_cases hp : c.state.isPaused = true
  · refine ⟨by simp [play, hp], by simp [play, hp], fun _ => by simp [play, hp], ?_⟩
    intro ts
    by_cases hs : c.state.playbackSpeed ≤ ts - now
    · constructor <;>
        simp [play, hp, loopStep, pause_isPaused, pause_currentTickIndex, h, hs, lt_irrefl]
    · constructor <;>
        simp [play, hp, loopStep, pause_isPaused, pause_currentTickIndex, h, hs, lt_irrefl]
  · refine ⟨by simp [play, hp], by simp [play, hp], fun hq => absurd hq hp, ?_⟩
    intro ts
    have hp' : c.state.isPaused = false := by
      cases hb : c.state.isPaused
      · rfl
      · exact absurd hb hp
    by_cases hs : c.state.playbackSpeed ≤ ts - c.lastUpdate
    · constructor <;>
        simp [play, hp, hp', loopStep, pause_isPaused, pause_currentTickIndex, h, hs, lt_irrefl]
    · constructor <;>
        simp [play, hp, hp', loopStep, pause_isPaused, pause_currentTickIndex, h, hs, lt_irrefl]

/-- Witness for C7's amended statement at the concrete end-of-data clock:
`play` flips the flag but emits nothing, and a subsequent loop frame (with
the full delay elapsed) still advances nothing and emits nothing. -/
theorem C7_witness :
    (play rcEnd 0).1.state.currentTickIndex = rcEnd.state.currentTickIndex ∧
    (play rcEnd 0).2 = [] ∧
    (play rcEnd 0).1.state.isPaused = false ∧
    (loopStep (play rcEnd 0).1 2000).1.state.currentTickIndex =
      rcEnd.state.currentTickIndex ∧
    (loopStep (play rcEnd 0).1 2000).2 = [] := by
  have h := C7_play_at_end_never_advances rcEnd 0 (by decide)
  exact ⟨h.1, h.2.1, h.2.2.1 rfl, (h.2.2.2 2000).1, (h.2.2.2 2000).2⟩

end Replay

namespace Broker

/-- `updateEquity` establishes the equity identity at any state. -/
theorem equity_inv_updateEquity (s : EngineState) :
    getEquity (updateEquity s) =
      getBalance (updateEquity s) + sumUnrealized (getOpenPositions (updateEquity s)) := rfl

/-- `closeTrade` preserves the equity identity. -/
theorem closeTrade_inv (s : EngineState) (tid : String) (ep : Option ℚ)
    (h : getEquity s = getBalance s + sumUnrealized (getOpenPositions s)) :
    getEquity (closeTrade s tid ep).2.1 =
      getBalance (closeTrade s tid ep).2.1 +
        sumUnrealized (getOpenPositions (closeTrade s tid ep).2.1) := by
  unfold closeTrade
  cases hcf : closeFirst tid (ep.getD s.currentPrice) s.positions with
  | none => simpa [hcf] using h
  | some pr => simp only [hcf]; exact equity_inv_updateEquity _

/-- `closeMany` preserves the equity identity. -/
theorem closeMany_inv (ids : List String) (s : EngineState)
    (h : getEquity s = getBalance s + sumUnrealized (getOpenPositions s)) :
    getEquity (closeMany s ids).1 =
      getBalance (closeMany s ids).1 +
        sumUnrealized (getOpenPositions (closeMany s ids).1) := by
  induction ids generalizing s with
  | nil => simpa [closeMany] using h
  | cons tid rest ih =>
      simp only [closeMany]
      exact ih _ (closeTrade_inv s tid none h)

/-- Claim C4: in every state reachable through the public operations,
the equity returned by `getEquity` equals the balance returned by
`getBalance` plus the summed unrealized P&L of the open positions. -/
theorem C4_equity_invariant (s : EngineState) (h : Reachable s) :
    getEquity s = getBalance s + sumUnrealized (getOpenPositions s) := by
  induction h with
  | init cfg => simp [Broker.init, getEquity, getBalance, getOpenPositions, sumUnrealized]
  | place s type price sl tp size _ ih =>
      by_cases hv : validateOrder s type price sl tp size = false
      · simpa [placeOrder, hv] using ih
      · by_cases hl : limitReached (getOpenPositions s).length s.config = true
        · simpa [placeOrder, hv, hl] using ih
        · simp only [placeOrder, hv, hl, if_false, Bool.false_eq_true, eq_self_iff_true]
          exact equity_inv_updateEquity _
  | upd s p _ _ => exact equity_inv_updateEquity _
  | close s tid ep _ ih => exact closeTrade_inv s tid ep ih
  | closeAll s _ ih => exact closeMany_inv _ s ih
  | reset s _ _ => simp [Broker.reset, getEquity, getBalance, getOpenPositions, sumUnrealized]

/-- Witness for C4 at a concrete reachable state: place an order under the
default configuration, then tick the price to 95. -/
theorem C4_witness :
    getEquity (update (placeOrder (init cfg0) TradeType.buy 100 90 110 none).2.1 95).1 =
      getBalance (update (placeOrder (init cfg0) TradeType.buy 100 90 110 none).2.1 95).1 +
        sumUnrealized (getOpenPositions
          (update (placeOrder (init cfg0) TradeType.buy 100 90 110 none).2.1 95).1) :=
  C4_equity_invariant _
    (Reachable.upd _ 95 (Reachable.place _ TradeType.buy 100 90 110 none (Reachable.init cfg0)))

end Broker

namespace Broker

/-- Setting a list entry to the value it already holds is the identity. -/
theorem set_getElem?_self {α : Type} (l : List α) (i : ℕ) (a : α)
    (h : l[i]? = some a) : l.set i a = l := by
  induction l generalizing i with
  | nil => simp at h
  | cons x xs ih =>
      cases i with
      | zero =>
          simp only [List.getElem?_cons_zero, Option.some.injEq] at h
          simp [h]
      | succ j =>
          simp only [List.getElem?_cons_succ] at h
          simp [List.set, ih j h]

/-- Refreshing the unrealized P&L never touches the stop-loss test. -/
theorem slHit_refresh (p q : ℚ) (t : Trade) :
    slHit p (refreshUnrealized q t) = slHit p t := rfl

/-- Refreshing the unrealized P&L never touches the take-profit test. -/
theorem tpHit_refresh (p q : ℚ) (t : Trade) :
    tpHit p (refreshUnrealized q t) = tpHit p t := rfl

/-- Refreshing the unrealized P&L keeps the trade id. -/
theorem refresh_id (q : ℚ) (t : Trade) : (refreshUnrealized q t).id = t.id := rfl

/-- Refreshing the unrealized P&L keeps the status. -/
theorem isOpen_refresh (q : ℚ) (t : Trade) :
    isOpen (refreshUnrealized q t) = isOpen t := rfl

/-- Closing keeps the trade id. -/
theorem close1_id (t : Trade) (cp : ℚ) : (close1 t cp).id = t.id := rfl

/-- The tick never changes the trade id. -/
theorem tickResult_id (p : ℚ) (t : Trade) : (tickResult p t).id = t.id := by
  unfold tickResult
  split_ifs <;> rfl

/-- Replacing an entry by one with the same id leaves the id list alone. -/
theorem idsOf_set_same (l : List Trade) (i : ℕ) (t u : Trade)
    (hget : l[i]? = some t) (hid : u.id = t.id) :
    idsOf (l.set i u) = idsOf l := by
  unfold idsOf
  rw [List.map_set, hid]
  exact set_getElem?_self _ i _ (by rw [List.getElem?_map, hget]; rfl)

/-- With pairwise-distinct ids, an id determines the index. -/
theorem ids_index_unique (l : List Trade) (hn : (idsOf l).Nodup) {i j : ℕ}
    {t u : Trade} (hi : l[i]? = some t) (hj : l[j]? = some u)
    (hid : u.id = t.id) : j = i := by
  obtain ⟨hil, hie⟩ := List.getElem?_eq_some.1 hi
  obtain ⟨hjl, hje⟩ := List.getElem?_eq_some.1 hj
  have hil' : i < (idsOf l).length := by simpa [idsOf] using hil
  have hjl' : j < (idsOf l).length := by simpa [idsOf] using hjl
  have : (idsOf l)[j] = (idsOf l)[i] := by
    simp only [idsOf, List.getElem_map, hie, hje, hid]
  exact (hn.getElem_inj_iff).1 this

/-- `closeFirst` misses when no trade with the requested id is open. -/
theorem closeFirst_eq_none (tid : String) (cp : ℚ) (l : List Trade)
    (h : ∀ t ∈ l, t.id = tid → isOpen t = false) :
    closeFirst tid cp l = none := by
  induction l with
  | nil => rfl
  | cons x rest ih =>
      have hx := h x (List.mem_cons_self x rest)
      have hg : ¬(x.id = tid ∧ isOpen x = true) := by
        rintro ⟨h1, h2⟩
        rw [hx h1] at h2
        cases h2
      have hrest : closeFirst tid cp rest = none :=
        ih (fun t ht => h t (List.mem_cons_of_mem x ht))
      simp [closeFirst, hg, hrest]

/-- With pairwise-distinct ids, `closeFirst` at the id of the open trade
sitting at index `i` closes exactly that entry. -/
theorem closeFirst_found (cp : ℚ) (l : List Trade) (i : ℕ) (t : Trade)
    (hn : (idsOf l).Nodup) (hget : l[i]? = some t) (hopen : isOpen t = true) :
    closeFirst t.id cp l = some (close1 t cp, l.set i (close1 t cp)) := by
  induction l generalizing i with
  | nil => simp at hget
  | cons x rest ih =>
      cases i with
      | zero =>
          simp only [List.getElem?_cons_zero, Option.some.injEq] at hget
          subst hget
          simp [closeFirst, hopen]
      | succ j =>
          simp only [List.getElem?_cons_succ] at hget
          have htmem : t ∈ rest := List.mem_iff_getElem?.2 ⟨j, hget⟩
          have hxid : ¬(x.id = t.id ∧ isOpen x = true) := by
            rintro ⟨h1, _⟩
            have : x.id ∈ idsOf rest := by
              exact List.mem_map.2 ⟨t, htmem, h1.symm⟩
            exact (List.nodup_cons.1 hn).1 this
          have hrec := ih j (by
            have := hn
            simp only [idsOf, List.map_cons] at this
            exact (List.nodup_cons.1 this).2) hget
          simp [closeFirst, hxid, hrec]

end Broker

namespace Broker

theorem closeTrade_found (s : EngineState) (i : ℕ) (t : Trade) (cp : ℚ)
    (hn : (idsOf s.positions).Nodup) (hget : s.positions[i]? = some t)
    (hopen : isOpen t = true) :
    closeTrade s t.id (some cp) =
      (some (close1 t cp),
       updateEquity
         { s with
            positions := s.positions.set i (close1 t cp)
            balance := s.balance + calculatePnL t.type t.entryPrice cp t.size },
       [{ type := TradeEventType.TRADE_CLOSED, trade := close1 t cp }]) := by
  unfold closeTrade
  simp only [Option.getD_some, closeFirst_found cp s.positions i t hn hget hopen]
  simp [close1]

theorem closeTrade_miss (s : EngineState) (tid : String) (cp : ℚ)
    (h : ∀ t ∈ s.positions, t.id = tid → isOpen t = false) :
    closeTrade s tid (some cp) = (none, s, []) := by
  unfold closeTrade
  simp only [Option.getD_some, closeFirst_eq_none tid cp s.positions h]

theorem refresh_sl (q : ℚ) (t : Trade) : (refreshUnrealized q t).sl = t.sl := rfl

theorem refresh_tp (q : ℚ) (t : Trade) : (refreshUnrealized q t).tp = t.tp := rfl

theorem refresh_type (q : ℚ) (t : Trade) : (refreshUnrealized q t).type = t.type := rfl

theorem refresh_entry (q : ℚ) (t : Trade) : (refreshUnrealized q t).entryPrice = t.entryPrice := rfl

theorem refresh_size (q : ℚ) (t : Trade) : (refreshUnrealized q t).size = t.size := rfl

theorem updateTick_eq (s : EngineState) (i : ℕ) (t : Trade)
    (hn : (idsOf s.positions).Nodup) (hget : s.positions[i]? = some t)
    (hopen : isOpen t = true) :
    updateTick s i =
      if slHit s.currentPrice t = true then
        (updateEquity
          { s with
             positions := s.positions.set i (tickResult s.currentPrice t)
             balance := s.balance + calculatePnL t.type t.entryPrice t.sl t.size },
         [{ type := TradeEventType.TRADE_CLOSED, trade := tickResult s.currentPrice t }])
      else
        ({ s with positions := s.positions.set i (tickResult s.currentPrice t) }, []) := by
  have hlen : i < s.positions.length := (List.getElem?_eq_some.1 hget).1
  by_cases hsl : slHit s.currentPrice t = true
  · rw [if_pos hsl]
    unfold updateTick
    rw [hget]
    simp only [slHit_refresh]
    rw [if_pos hsl]
    have hst1n : (idsOf (s.positions.set i (refreshUnrealized s.currentPrice t))).Nodup := by
      rw [idsOf_set_same s.positions i t _ hget (refresh_id _ t)]
      exact hn
    have hst1get : (s.positions.set i (refreshUnrealized s.currentPrice t))[i]? =
        some (refreshUnrealized s.currentPrice t) := List.getElem?_set_self (by simpa using hlen)
    have hbody := closeTrade_found
      { s with positions := s.positions.set i (refreshUnrealized s.currentPrice t) }
      i (refreshUnrealized s.currentPrice t) (refreshUnrealized s.currentPrice t).sl
      hst1n hst1get (by rw [isOpen_refresh, hopen])
    rw [hbody]
    have hres : tickResult s.currentPrice t =
        close1 (refreshUnrealized s.currentPrice t) (refreshUnrealized s.currentPrice t).sl := by
      unfold tickResult
      rw [if_pos hsl, refresh_sl]
    rw [hres]
    simp [List.set_set, refresh_sl, refresh_type, refresh_entry, refresh_size]
  · rw [if_neg hsl]
    unfold updateTick
    rw [hget]
    simp only [slHit_refresh, tpHit_refresh]
    rw [if_neg hsl]
    by_cases htp : tpHit s.currentPrice t = true
    · rw [if_pos htp]
      have hmiss := closeTrade_miss
        { s with positions := ((s.positions.set i (refreshUnrealized s.currentPrice t)).set i { refreshUnrealized s.currentPrice t with status := TradeStatus.taken }) }
        (refreshUnrealized s.currentPrice t).id
        (refreshUnrealized s.currentPrice t).tp
        (by
          intro u hu hid
          rw [List.set_set] at hu
          obtain ⟨j, hj⟩ := List.mem_iff_getElem?.1 hu
          by_cases hji : j = i
          · subst hji
            rw [List.getElem?_set_self (by simpa using hlen)] at hj
            cases hj
            rfl
          · rw [List.getElem?_set_ne (fun hh => hji hh.symm)] at hj
            have := ids_index_unique s.positions hn hget hj (by simpa using hid)
            exact absurd this hji)
      rw [hmiss]
      have hres : tickResult s.currentPrice t =
          { refreshUnrealized s.currentPrice t with status := TradeStatus.taken } := by
        unfold tickResult
        rw [if_neg hsl, if_pos htp]
      rw [hres]
      simp [List.set_set]
    · rw [if_neg htp]
      have hres : tickResult s.currentPrice t = refreshUnrealized s.currentPrice t := by
        unfold tickResult
        rw [if_neg hsl, if_neg htp]
      rw [hres]

end Broker

namespace Broker

theorem updateEquity_positions (s : EngineState) : (updateEquity s).positions = s.positions := rfl

theorem updateEquity_currentPrice (s : EngineState) :
    (updateEquity s).currentPrice = s.currentPrice := rfl

theorem updateEquity_config (s : EngineState) : (updateEquity s).config = s.config := rfl

theorem runTicks_cons (s : EngineState) (i : ℕ) (rest : List ℕ) :
    runTicks s (i :: rest) =
      ((runTicks (updateTick s i).1 rest).1,
       (updateTick s i).2 ++ (runTicks (updateTick s i).1 rest).2) := rfl

theorem runTicks_spec (idxs : List ℕ) (s : EngineState)
    (hn : (idsOf s.positions).Nodup)
    (hd : idxs.Nodup)
    (hv : ∀ k ∈ idxs, ∃ t, s.positions[k]? = some t ∧ isOpen t = true) :
    (runTicks s idxs).1.currentPrice = s.currentPrice ∧
    (runTicks s idxs).1.config = s.config ∧
    idsOf (runTicks s idxs).1.positions = idsOf s.positions ∧
    (∀ j, j ∉ idxs → (runTicks s idxs).1.positions[j]? = s.positions[j]?) ∧
    (∀ k ∈ idxs, (runTicks s idxs).1.positions[k]? =
       Option.map (tickResult s.currentPrice) s.positions[k]?) := by
  induction idxs generalizing s with
  | nil => exact ⟨rfl, rfl, rfl, fun _ _ => rfl, fun k hk => absurd hk (List.not_mem_nil k)⟩
  | cons i rest ih =>
      obtain ⟨t, hget, hopen⟩ := hv i (List.mem_cons_self i rest)
      have hlen : i < s.positions.length := (List.getElem?_eq_some.1 hget).1
      have hstep := updateTick_eq s i t hn hget hopen
      have hpos' : (updateTick s i).1.positions =
          s.positions.set i (tickResult s.currentPrice t) := by
        rw [hstep]; split_ifs <;> rfl
      have hcp' : (updateTick s i).1.currentPrice = s.currentPrice := by
        rw [hstep]; split_ifs <;> rfl
      have hcfg' : (updateTick s i).1.config = s.config := by
        rw [hstep]; split_ifs <;> rfl
      have hids' : idsOf (updateTick s i).1.positions = idsOf s.positions := by
        rw [hpos']
        exact idsOf_set_same s.positions i t _ hget (tickResult_id _ t)
      have hinotin : i ∉ rest := (List.nodup_cons.1 hd).1
      have hn' : (idsOf (updateTick s i).1.positions).Nodup := by
        rw [hids']; exact hn
      have hv' : ∀ k ∈ rest, ∃ t', (updateTick s i).1.positions[k]? = some t' ∧
          isOpen t' = true := by
        intro k hk
        have hki : i ≠ k := fun hh => hinotin (hh ▸ hk)
        rw [hpos', List.getElem?_set_ne hki]
        exact hv k (List.mem_cons_of_mem i hk)
      have IH := ih (updateTick s i).1 hn' (List.nodup_cons.1 hd).2 hv'
      rw [runTicks_cons]
      refine ⟨?_, ?_, ?_, ?_, ?_⟩
      · rw [IH.1, hcp']
      · rw [IH.2.1, hcfg']
      · rw [IH.2.2.1, hids']
      · intro j hj
        have hji : j ≠ i := fun hh => hj (hh ▸ List.mem_cons_self i rest)
        have hjr : j ∉ rest := fun hh => hj (List.mem_cons_of_mem i hh)
        rw [IH.2.2.2.1 j hjr, hpos', List.getElem?_set_ne (fun hh => hji hh.symm)]
      · intro k hk
        rcases List.mem_cons.1 hk with hki | hkr
        · subst hki
          rw [IH.2.2.2.1 k hinotin, hpos',
            List.getElem?_set_self (by simpa using hlen), hget]
          rfl
        · have hik : i ≠ k := fun hh => hinotin (hh ▸ hkr)
          rw [IH.2.2.2.2 k hkr, hcp', hpos', List.getElem?_set_ne hik]

end Broker

namespace Broker

theorem mem_openIdxs (l : List Trade) (i : ℕ) :
    i ∈ openIdxs l ↔ ∃ t, l[i]? = some t ∧ isOpen t = true := by
  unfold openIdxs
  rw [List.mem_filter, List.mem_range]
  constructor
  · rintro ⟨hlt, hb⟩
    unfold isOpenAt at hb
    cases h : l[i]? with
    | none => rw [h] at hb; cases hb
    | some t => rw [h] at hb; exact ⟨t, rfl, hb⟩
  · rintro ⟨t, hget, hopen⟩
    refine ⟨(List.getElem?_eq_some.1 hget).1, ?_⟩
    unfold isOpenAt
    rw [hget]
    exact hopen

theorem openIdxs_nodup (l : List Trade) : (openIdxs l).Nodup :=
  (List.nodup_range l.length).filter _

/-- Claim C3: the stop-loss check takes precedence.  For any open trade of
a duplicate-free history, whenever a single `update p` presents a price
with the stop-loss condition satisfied (`p ≤ sl` for a long, `p ≥ sl` for
a short, exactly the source's tests) — even if the take-profit condition
holds simultaneously, as in a gap — the trade closes in that tick with
status `stopped` (never `taken`), at exactly the stop level. -/
theorem C3_stop_loss_priority (s : EngineState) (p : ℚ) (i : ℕ) (t : Trade)
    (hn : (idsOf s.positions).Nodup)
    (hget : s.positions[i]? = some t) (hopen : isOpen t = true)
    (hsl : slHit p t = true) :
    ∃ t', (update s p).1.positions[i]? = some t' ∧
      t'.status = TradeStatus.stopped ∧
      t'.exitPrice = some t.sl ∧
      t'.realizedPnL = some (calculatePnL t.type t.entryPrice t.sl t.size) := by
  have hmem : i ∈ openIdxs s.positions := (mem_openIdxs _ _).2 ⟨t, hget, hopen⟩
  have master := runTicks_spec (openIdxs s.positions) { s with currentPrice := p }
    hn (openIdxs_nodup _) (fun k hk => (mem_openIdxs _ _).1 hk)
  have hproc := master.2.2.2.2 i hmem
  rw [hget] at hproc
  refine ⟨tickResult p t, ?_, ?_, ?_, ?_⟩
  · show (updateEquity (runTicks { s with currentPrice := p }
      (openIdxs s.positions)).1).positions[i]? = some (tickResult p t)
    rw [updateEquity_positions, hproc]
    rfl
  · unfold tickResult
    rw [if_pos hsl]
    rfl
  · unfold tickResult
    rw [if_pos hsl]
    rfl
  · unfold tickResult
    rw [if_pos hsl]
    rfl

end Broker

namespace Broker

theorem refresh_self (p : ℚ) (t : Trade)
    (h : t.unrealizedPnL = calculatePnL t.type t.entryPrice p t.size) :
    refreshUnrealized p t = t := by
  unfold refreshUnrealized
  rw [← h]

theorem isOpen_close1 (t : Trade) (cp : ℚ) : isOpen (close1 t cp) = false := rfl

theorem isOpen_taken (t : Trade) :
    isOpen { t with status := TradeStatus.taken } = false := rfl

theorem noHit_refresh (p q : ℚ) (t : Trade) :
    noHit p (refreshUnrealized q t) = noHit p t := rfl

theorem tickResult_open (p : ℚ) (t : Trade)
    (h : isOpen (tickResult p t) = true) :
    slHit p t = false ∧ tpHit p t = false ∧ tickResult p t = refreshUnrealized p t := by
  unfold tickResult at h ⊢
  by_cases hsl : slHit p t = true
  · rw [if_pos hsl] at h
    rw [isOpen_close1] at h
    cases h
  · by_cases htp : tpHit p t = true
    · rw [if_neg hsl, if_pos htp] at h
      rw [isOpen_taken] at h
      cases h
    · exact ⟨Bool.not_eq_true _ ▸ Bool.of_not_eq_true hsl,
        Bool.of_not_eq_true htp, by rw [if_neg hsl, if_neg htp]⟩

theorem updateTick_settled (s : EngineState) (i : ℕ) (t : Trade)
    (hget : s.positions[i]? = some t) (_hopen : isOpen t = true)
    (hno : noHit s.currentPrice t = true)
    (hur : t.unrealizedPnL = calculatePnL t.type t.entryPrice s.currentPrice t.size) :
    updateTick s i = (s, []) := by
  have hboth := hno
  unfold noHit at hboth
  rw [Bool.and_eq_true, Bool.not_eq_true', Bool.not_eq_true'] at hboth
  unfold updateTick
  rw [hget]
  simp only [refresh_self s.currentPrice t hur, set_getElem?_self _ _ _ hget,
    hboth.1, hboth.2]
  simp

theorem runTicks_settled (idxs : List ℕ) (s : EngineState)
    (h : ∀ k ∈ idxs, ∃ t, s.positions[k]? = some t ∧ isOpen t = true ∧
       noHit s.currentPrice t = true ∧
       t.unrealizedPnL = calculatePnL t.type t.entryPrice s.currentPrice t.size) :
    runTicks s idxs = (s, []) := by
  induction idxs with
  | nil => rfl
  | cons i rest ih =>
      obtain ⟨t, hget, hopen, hno, hur⟩ := h i (List.mem_cons_self i rest)
      rw [runTicks_cons, updateTick_settled s i t hget hopen hno hur]
      rw [ih (fun k hk => h k (List.mem_cons_of_mem i hk))]
      rfl

end Broker

namespace Broker

/-- Claim C8: `update` is idempotent.  After `update p`, running
`update p` again returns the very same state and publishes no event: every
still-open trade already carries the unrealized P&L for `p` and satisfies
neither exit condition, so the second pass changes nothing and closes
nothing twice.  (Trade ids are pairwise distinct in every state the engine
itself can produce; the hypothesis pins that down.) -/
theorem C8_update_idempotent (s : EngineState) (p : ℚ)
    (hn : (idsOf s.positions).Nodup) :
    update (update s p).1 p = ((update s p).1, []) := by
  have master := runTicks_spec (openIdxs s.positions) { s with currentPrice := p }
    hn (openIdxs_nodup _) (fun k hk => (mem_openIdxs _ _).1 hk)
  set s1 := (update s p).1 with hs1
  have hs1pos : s1.positions =
      (runTicks { s with currentPrice := p } (openIdxs s.positions)).1.positions := rfl
  have hs1cp : s1.currentPrice = p := master.1
  have hsettle : ∀ k ∈ openIdxs s1.positions, ∃ t', s1.positions[k]? = some t' ∧
      isOpen t' = true ∧ noHit s1.currentPrice t' = true ∧
      t'.unrealizedPnL = calculatePnL t'.type t'.entryPrice s1.currentPrice t'.size := by
    intro k hk
    obtain ⟨u, hu, huopen⟩ := (mem_openIdxs _ _).1 hk
    by_cases hkm : k ∈ openIdxs s.positions
    · have hproc := master.2.2.2.2 k hkm
      obtain ⟨t0, ht0, ht0open⟩ := (mem_openIdxs _ _).1 hkm
      rw [ht0] at hproc
      have hu' : u = tickResult p t0 := by
        rw [hs1pos, hproc] at hu
        cases hu
        rfl
      subst hu'
      obtain ⟨hsl0, htp0, heq⟩ := tickResult_open p t0 huopen
      refine ⟨tickResult p t0, hu, huopen, ?_, ?_⟩
      · rw [heq, hs1cp, noHit_refresh]
        simp [noHit, hsl0, htp0]
      · rw [heq, hs1cp]
        rfl
    · exfalso
      have huntouched := master.2.2.2.1 k hkm
      rw [hs1pos, huntouched] at hu
      exact hkm ((mem_openIdxs _ _).2 ⟨u, hu, huopen⟩)
  have hset : { s1 with currentPrice := p } = s1 := by
    rw [← hs1cp]
  have hticks : runTicks s1 (openIdxs s1.positions) = (s1, []) :=
    runTicks_settled _ _ (by
      intro k hk
      obtain ⟨t', h1, h2, h3, h4⟩ := hsettle k hk
      exact ⟨t', h1, h2, h3, h4⟩)
  show update s1 p = (s1, [])
  unfold update updateAllPositions
  simp only []
  rw [hset, hticks]
  rfl

end Broker

namespace Broker

/-- Witness for C3 at a concrete gap state: at price 95 both the stop-loss
(95 ≤ 100) and the take-profit (95 ≥ 90) conditions hold, and the trade
closes as `stopped` at the stop level. -/
theorem C3_witness :
    slHit 95 tBoth = true ∧ tpHit 95 tBoth = true ∧
    (∃ t', (update sGap 95).1.positions[0]? = some t' ∧
      t'.status = TradeStatus.stopped ∧
      t'.exitPrice = some tBoth.sl ∧
      t'.realizedPnL = some (calculatePnL tBoth.type tBoth.entryPrice tBoth.sl tBoth.size)) := by
  have h1 : slHit 95 tBoth = true := by norm_num [slHit, tBoth]
  have h2 : tpHit 95 tBoth = true := by norm_num [tpHit, tBoth]
  exact ⟨h1, h2, C3_stop_loss_priority sGap 95 0 tBoth (by decide) rfl rfl h1⟩

/-- Witness for C8 at the concrete gap state: a second `update 95` after
the first is the identity and emits nothing. -/
theorem C8_witness :
    update (update sGap 95).1 95 = ((update sGap 95).1, []) :=
  C8_update_idempotent sGap 95 (by decide)

end Broker
